import Mathlib

/-!
Verification of the context-generic programming (CGP) demo programs of this
repository (`src/main.rs`, `src/lib.rs`, `bin/hello.rs`, `bin/abstract_name.rs`)
together with the build-time capability-resolution engine they rely on.

The demo code is embedded directly.  The wiring/resolution engine lives in the
external `cgp` crate (only its macro invocations appear in this repository),
so the delegation-table lookup, getter synthesis and the resolution checker
are modelled from the specification.
-/

set_option maxHeartbeats 1000000

namespace CGP

/-! ## The demo contexts and providers (embedded from the source) -/

/-- The `Person` context from `hello.rs` / `main.rs` / `lib.rs`:
a single attribute `name : String`. -/
structure Person where
  name : String
deriving DecidableEq, Repr

/-- The consumer-facing `HasName` requirement of `hello.rs` (concrete variant):
a context exposing an accessor returning its name as a `String`. -/
structure HasNameInst (Context : Type) where
  name : Context → String

/-- The provider `GreetHello` of `hello.rs` / `main.rs`, generic over any
context satisfying `HasName`.  The `println!` output is modelled as the
returned line of text. -/
def GreetHello.greet {Context : Type} (inst : HasNameInst Context)
    (context : Context) : String :=
  "Hello, " ++ inst.name context ++ "!"

/-- The `HasName` instance that `derive(HasField)` plus `cgp_auto_getter`
produce for `Person`: read the `name` field. -/
def personHasName : HasNameInst Person :=
  { name := Person.name }

/-- The abstract-slot `HasName: HasNameType` requirement of
`abstract_name.rs`: the context owns an abstract `Name` type, an accessor
for it, and the `Display` bound on `Name` (modelled as a rendering
function to `String`). -/
structure HasNameTypeInst (Context : Type) where
  Name : Type
  name : Context → Name
  display : Name → String

/-- The provider `GreetHello` of `abstract_name.rs`, generic over any context
satisfying `HasName` with `Context::Name: Display`. -/
def GreetHelloAbs.greet {Context : Type} (inst : HasNameTypeInst Context)
    (context : Context) : String :=
  "Hello, " ++ inst.display (inst.name context) ++ "!"

/-- The instantiation of the abstract variant for `Person` in
`abstract_name.rs`: `NameTypeComponent` is bound to `UseType<String>`, so
`Name = String`, the getter reads the `name` field, and `Display` on
`String` renders the string itself. -/
def personAbsInst : HasNameTypeInst Person :=
  { Name := String, name := Person.name, display := fun s => s }

/-- The `println!` effect modelled as appending one line to the output log. -/
def printlnLine (line : String) (out : List String) : List String :=
  out ++ [line]

/-- One invocation of the `greet` capability on a context, in the explicit
output-state model: the emitted line is appended to the log. -/
def greetRun {Context : Type} (inst : HasNameInst Context) (context : Context)
    (out : List String) : List String :=
  printlnLine (GreetHello.greet inst context) out

/-! ## Delegation tables and capability dispatch

Modelled from the spec: `delegate_components!` builds a per-context mapping
from capability identifiers to providers, and a capability call on a
resolved context looks the provider up in that table and invokes it with
the context.  The `cgp` crate that realises this is not part of the
repository's sources. -/

/-- First-entry association-list lookup (keys are capability identifiers). -/
def lookupAssoc {β : Type _} : List (String × β) → String → Option β
  | [], _ => none
  | (k, v) :: rest, key => if k = key then some v else lookupAssoc rest key

/-- Modelled from the spec: dispatch of a capability call.  The provider
bound to `cap` in the context's delegation table is invoked on the context;
an unbound capability has no behavior. -/
def invoke {Context ProviderT : Type} (table : List (String × ProviderT))
    (run : ProviderT → Context → String) (cap : String) (c : Context) :
    Option String :=
  match lookupAssoc table cap with
  | some p => some (run p c)
  | none => none

/-- Provider identifiers bound in the demo delegation tables. -/
inductive PId where
  | greetHello
  | useFields
deriving DecidableEq, Repr

/-- Behavior of each demo provider on the `Person` context: `GreetHello`
produces the greeting line, `UseFields` (the synthesized getter provider)
returns the `name` field. -/
def providerRun : PId → Person → String
  | PId.greetHello => fun p => GreetHello.greet personHasName p
  | PId.useFields => fun p => p.name

/-- The `PersonComponents` delegation table of `main.rs` / `hello.rs`:
`GreeterComponent` is bound to `GreetHello`. -/
def personTable : List (String × PId) :=
  [("GreeterComponent", PId.greetHello)]

/-- The `PersonComponents` delegation table of `lib.rs`:
`NameGetterComponent` is bound to `UseFields`. -/
def personLibTable : List (String × PId) :=
  [("NameGetterComponent", PId.useFields)]

/-- The consumer method `person.name()` of `lib.rs`, resolved through the
delegation table to the `UseFields` getter provider. -/
def personNameMethod (p : Person) : Option String :=
  invoke personLibTable providerRun "NameGetterComponent" p

/-- Modelled from the spec: a synthesized getter runs against the context
and yields the (unchanged) context together with the view of the attribute
value it exposes.  For `Person`, the `UseFields` getter reads the `name`
field. -/
def Person.nameGetter (p : Person) : Person × String :=
  (p, p.name)

/-- A context with named string attributes, used to state getter-framing
properties over arbitrary contexts. -/
structure FieldCtx where
  fields : List (String × String)
deriving DecidableEq, Repr

/-- Modelled from the spec: running a synthesized getter against a context
returns the context unchanged together with the view of the named
attribute's stored value. -/
def runSynthGetter (ctx : FieldCtx) (attr : String) :
    FieldCtx × Option String :=
  (ctx, lookupAssoc ctx.fields attr)

/-! ## Getter synthesis

Modelled from the spec: the `HasField` derive plus `cgp_auto_getter` /
`UseFields` synthesize an accessor provider by exact-name matching against
the context's attributes, checking the accessor's trait bound structurally;
no match or an ambiguous match leaves the capability unresolved. -/

/-- Type descriptors of context attributes. -/
inductive Ty where
  | str
  | unitTy
deriving DecidableEq, Repr

/-- Trait-like bounds an accessor capability may place on the attribute
type (`Display` in the demos). -/
inductive Bound where
  | noBound
  | display
deriving DecidableEq, Repr

/-- Structural check of an accessor bound against an attribute type:
`String` implements `Display`, the unit type does not. -/
def satisfiesBound (t : Ty) : Bound → Bool
  | Bound.noBound => true
  | Bound.display =>
    match t with
    | Ty.str => true
    | Ty.unitTy => false

/-- An accessor-shaped capability: the attribute identifier it exposes and
the bound its declared return type places on the attribute. -/
structure Accessor where
  attrName : String
  bound : Bound
deriving DecidableEq, Repr

/-- Modelled from the spec: the attributes of a context that an accessor
capability could be synthesized from — exact identifier match and
structural bound satisfaction. -/
def matchingAttrs (attrs : List (String × Ty)) (acc : Accessor) :
    List (String × Ty) :=
  attrs.filter fun a => a.1 = acc.attrName && satisfiesBound a.2 acc.bound

/-- Modelled from the spec: getter synthesis succeeds exactly when one
single attribute matches; no match or an ambiguous match yields no getter. -/
def synthGetter (attrs : List (String × Ty)) (acc : Accessor) :
    Option (String × Ty) :=
  match matchingAttrs attrs acc with
  | [a] => some a
  | _ => none

/-! ## The resolution checker

Modelled from the spec: the build-time pass that certifies a context as
capability-complete.  It walks each bound provider's requirement set
depth-first, keeping the capabilities currently being resolved to detect
cycles, falling back to getter synthesis for accessor-shaped capabilities
absent from the table, and reporting Missing or Cyclic otherwise. -/

/-- A provider as registered in a delegation table: the set of capability
identifiers it requires of the same context. -/
structure Provider where
  requires : List String
deriving DecidableEq, Repr

/-- A capability declaration: accessor-shaped capabilities carry the
accessor information used by getter synthesis. -/
structure CapDecl where
  accessor : Option Accessor
deriving DecidableEq, Repr

/-- A context as seen by the resolution checker: its attributes and its
delegation table. -/
structure Ctx where
  attrs : List (String × Ty)
  table : List (String × Provider)
deriving DecidableEq, Repr

/-- Terminal failure reasons of the resolution checker. -/
inductive Reason where
  | missing (cap : String)
  | cyclic (cap : String)
deriving DecidableEq, Repr

/-- Outcome of resolution. -/
inductive Res where
  | ok
  | fail (r : Reason)
deriving DecidableEq, Repr

/-- Sequencing of resolution outcomes: the first failure is kept. -/
def Res.andThen (r : Res) (next : Unit → Res) : Res :=
  match r with
  | Res.ok => next ()
  | Res.fail e => Res.fail e

/-- Modelled from the spec: depth-first resolution of one capability.
A capability already on the resolution path is Cyclic; one bound in the
table recursively resolves its provider's requirements; an accessor-shaped
capability may be satisfied by getter synthesis; otherwise it is Missing. -/
def resolveCap (decls : List (String × CapDecl)) (ctx : Ctx) :
    Nat → List String → String → Res
  | 0, _, cap => Res.fail (Reason.cyclic cap)
  | fuel + 1, visiting, cap =>
    if cap ∈ visiting then Res.fail (Reason.cyclic cap)
    else
      match lookupAssoc ctx.table cap with
      | some p =>
        p.requires.foldl
          (fun acc c => acc.andThen fun _ => resolveCap decls ctx fuel (cap :: visiting) c)
          Res.ok
      | none =>
        match lookupAssoc decls cap with
        | some d =>
          match d.accessor with
          | some acc =>
            match synthGetter ctx.attrs acc with
            | some _ => Res.ok
            | none => Res.fail (Reason.missing cap)
          | none => Res.fail (Reason.missing cap)
        | none => Res.fail (Reason.missing cap)

/-- Modelled from the spec: resolution of a list of required capabilities;
the first failure is reported. -/
def resolveList (decls : List (String × CapDecl)) (ctx : Ctx)
    (fuel : Nat) (visiting : List String) : List String → Res
  | [] => Res.ok
  | cap :: rest =>
    match resolveCap decls ctx fuel visiting cap with
    | Res.ok => resolveList decls ctx fuel visiting rest
    | Res.fail r => Res.fail r

/-- The capabilities a context's delegation table binds: the roots of the
resolution walk. -/
def rootCaps (ctx : Ctx) : List String :=
  ctx.table.map Prod.fst

/-- Fuel sufficient for the depth-first walk: the resolution path can only
hold distinct table keys. -/
def contextFuel (decls : List (String × CapDecl)) (ctx : Ctx) : Nat :=
  ctx.table.length + decls.length + 1

/-- Modelled from the spec: the full build-time check of one context —
every capability bound in its delegation table must resolve. -/
def resolveContext (decls : List (String × CapDecl)) (ctx : Ctx) : Res :=
  resolveList decls ctx (contextFuel decls ctx) [] (rootCaps ctx)

/-! ## The demo wiring as checker input -/

/-- Capability declarations of `hello.rs` / `main.rs`: `GreeterComponent`
is behavioral, `HasName` is accessor-shaped over attribute `name` with a
`Display`-compatible return type. -/
def helloDecls : List (String × CapDecl) :=
  [("GreeterComponent", { accessor := none }),
   ("HasName", { accessor := some { attrName := "name", bound := Bound.display } })]

/-- The `Person` context with its `PersonComponents` table as checker
input: attribute `name : String`, `GreeterComponent` bound to a provider
requiring `HasName`. -/
def personCtxDecl : Ctx :=
  { attrs := [("name", Ty.str)],
    table := [("GreeterComponent", { requires := ["HasName"] })] }

/-- The renamed variant of `Person` the spec discusses: attribute
`full_name` instead of `name`, delegation table unchanged. -/
def renamedPersonCtxDecl : Ctx :=
  { attrs := [("full_name", Ty.str)],
    table := [("GreeterComponent", { requires := ["HasName"] })] }

/-! ## The requirement graph of a delegation table -/

/-- One edge of a delegation table's requirement graph: the provider bound
to `c` requires `d` of the same context. -/
def tableEdge (table : List (String × Provider)) (c d : String) : Prop :=
  ∃ p, lookupAssoc table c = some p ∧ d ∈ p.requires

/-- A nonempty path in the requirement graph.  `ReqPath table c c` states
that the provider bound to `c` transitively requires the very capability
it provides — a provider cycle. -/
inductive ReqPath (table : List (String × Provider)) : String → String → Prop
  | single {c d : String} : tableEdge table c d → ReqPath table c d
  | cons {c m d : String} : tableEdge table c m → ReqPath table m d →
      ReqPath table c d

/-- Every capability identifier mentioned by a delegation table: its keys
and every bound provider's requirements. -/
def relevantCaps (ctx : Ctx) : List String :=
  ctx.table.map Prod.fst ++ (ctx.table.map fun e => e.2.requires).flatten

/-- A capability that cannot come out Missing: it is bound in the table,
or it is accessor-shaped and getter synthesis succeeds on the context's
attributes. -/
def boundOrSynth (decls : List (String × CapDecl)) (ctx : Ctx)
    (c : String) : Prop :=
  (lookupAssoc ctx.table c).isSome = true ∨
  ∃ d acc a, lookupAssoc decls c = some d ∧ d.accessor = some acc ∧
    synthGetter ctx.attrs acc = some a

/-- A two-provider cycle: the provider bound to `Greet` requires `Helper`,
and the provider bound to `Helper` requires `Greet` back. -/
def cycCtx : Ctx :=
  { attrs := [],
    table := [("Greet", { requires := ["Helper"] }),
              ("Helper", { requires := ["Greet"] })] }

/-- A second, unrelated context type used to exercise provider reuse:
a robot identified by a serial string. -/
structure Robot where
  serial : String
deriving DecidableEq, Repr

/-- The abstract `HasName` instantiation for `Robot`: `Name = String`,
reading the serial. -/
def robotAbsInst : HasNameTypeInst Robot :=
  { Name := String, name := Robot.serial, display := fun s => s }

/-! ## Helper lemmas about the resolver -/

theorem lookupAssoc_mem {β : Type _} :
    ∀ (l : List (String × β)) (k : String) (v : β),
      lookupAssoc l k = some v → (k, v) ∈ l := by
  intro l
  induction l with
  | nil => intro k v h; cases h
  | cons e rest ih =>
      intro k v h
      by_cases hk : e.1 = k
      · rcases e with ⟨k', v'⟩
        simp only at hk
        subst hk
        simp only [lookupAssoc, if_pos rfl] at h
        injection h with hv
        subst hv
        exact List.mem_cons_self _ _
      · rcases e with ⟨k', v'⟩
        simp only at hk
        simp only [lookupAssoc, if_neg hk] at h
        exact List.mem_cons_of_mem _ (ih k v h)

theorem foldl_resolve_fail (decls : List (String × CapDecl)) (ctx : Ctx)
    (fuel : Nat) (vis : List String) (r : Reason) :
    ∀ caps : List String,
      caps.foldl
        (fun acc c => Res.andThen acc fun _ => resolveCap decls ctx fuel vis c)
        (Res.fail r) = Res.fail r := by
  intro caps
  induction caps with
  | nil => rfl
  | cons c rest ih => exact ih

theorem foldl_resolve_eq (decls : List (String × CapDecl)) (ctx : Ctx)
    (fuel : Nat) (vis : List String) :
    ∀ caps : List String,
      caps.foldl
        (fun acc c => Res.andThen acc fun _ => resolveCap decls ctx fuel vis c)
        Res.ok = resolveList decls ctx fuel vis caps := by
  intro caps
  induction caps with
  | nil => rfl
  | cons c rest ih =>
      rw [List.foldl_cons]
      have hstep : Res.andThen Res.ok (fun _ => resolveCap decls ctx fuel vis c) =
          resolveCap decls ctx fuel vis c := rfl
      rw [hstep]
      rcases h : resolveCap decls ctx fuel vis c with _ | r
      · simp only [resolveList, h]
        exact ih
      · rw [foldl_resolve_fail]
        simp only [resolveList, h]

theorem resolveCap_zero (decls : List (String × CapDecl)) (ctx : Ctx)
    (vis : List String) (cap : String) :
    resolveCap decls ctx 0 vis cap = Res.fail (Reason.cyclic cap) := rfl

theorem resolveCap_succ (decls : List (String × CapDecl)) (ctx : Ctx)
    (fuel : Nat) (vis : List String) (cap : String) :
    resolveCap decls ctx (fuel + 1) vis cap =
      if cap ∈ vis then Res.fail (Reason.cyclic cap)
      else
        match lookupAssoc ctx.table cap with
        | some p => resolveList decls ctx fuel (cap :: vis) p.requires
        | none =>
          match lookupAssoc decls cap with
          | some d =>
            match d.accessor with
            | some acc =>
              match synthGetter ctx.attrs acc with
              | some _ => Res.ok
              | none => Res.fail (Reason.missing cap)
            | none => Res.fail (Reason.missing cap)
          | none => Res.fail (Reason.missing cap) := by
  rw [resolveCap]
  by_cases hv : cap ∈ vis
  · rw [if_pos hv, if_pos hv]
  · rw [if_neg hv, if_neg hv]
    cases hl : lookupAssoc ctx.table cap with
    | none => rfl
    | some p => exact foldl_resolve_eq decls ctx fuel (cap :: vis) p.requires

theorem resolveCap_ok_not_visiting {decls : List (String × CapDecl)}
    {ctx : Ctx} {fuel : Nat} {vis : List String} {cap : String}
    (h : resolveCap decls ctx fuel vis cap = Res.ok) : cap ∉ vis := by
  intro hv
  cases fuel with
  | zero => rw [resolveCap_zero] at h; cases h
  | succ fuel => rw [resolveCap_succ, if_pos hv] at h; cases h

theorem resolveList_ok_of_mem {decls : List (String × CapDecl)} {ctx : Ctx}
    {fuel : Nat} {vis : List String} :
    ∀ {caps : List String}, resolveList decls ctx fuel vis caps = Res.ok →
      ∀ {c : String}, c ∈ caps → resolveCap decls ctx fuel vis c = Res.ok := by
  intro caps
  induction caps with
  | nil => intro _ c hc; cases hc
  | cons a rest ih =>
      intro h c hc
      rcases ha : resolveCap decls ctx fuel vis a with _ | r
      · simp only [resolveList, ha] at h
        rcases List.mem_cons.mp hc with rfl | hc'
        · exact ha
        · exact ih h hc'
      · simp only [resolveList, ha] at h
        cases h

theorem resolveCap_ok_no_path_into_stack (decls : List (String × CapDecl))
    (ctx : Ctx) :
    ∀ (fuel : Nat) (vis : List String) (c : String),
      resolveCap decls ctx fuel vis c = Res.ok →
      ∀ d, ReqPath ctx.table c d → d ∉ c :: vis := by
  intro fuel
  induction fuel with
  | zero => intro vis c h; rw [resolveCap_zero] at h; cases h
  | succ fuel ih =>
      intro vis c h d hpath
      have hv : c ∉ vis := resolveCap_ok_not_visiting h
      rw [resolveCap_succ, if_neg hv] at h
      cases hl : lookupAssoc ctx.table c with
      | none =>
          cases hpath with
          | single e =>
              obtain ⟨p', hp', _⟩ := e
              rw [hl] at hp'
              cases hp'
          | cons e _ =>
              obtain ⟨p', hp', _⟩ := e
              rw [hl] at hp'
              cases hp'
      | some p =>
          simp only [hl] at h
          cases hpath with
          | single e =>
              obtain ⟨p', hp', hd⟩ := e
              rw [hl] at hp'
              injection hp' with hpp
              subst hpp
              exact resolveCap_ok_not_visiting (resolveList_ok_of_mem h hd)
          | cons e hpath' =>
              obtain ⟨p', hp', hm⟩ := e
              rw [hl] at hp'
              injection hp' with hpp
              subst hpp
              have hmok := resolveList_ok_of_mem h hm
              intro hdmem
              exact ih (c :: vis) _ hmok d hpath' (List.mem_cons_of_mem _ hdmem)

theorem reqpath_start_mem_roots {ctx : Ctx} {c d : String}
    (h : ReqPath ctx.table c d) : c ∈ rootCaps ctx := by
  have hex : ∃ p, lookupAssoc ctx.table c = some p := by
    cases h with
    | single e => obtain ⟨p, hp, _⟩ := e; exact ⟨p, hp⟩
    | cons e _ => obtain ⟨p, hp, _⟩ := e; exact ⟨p, hp⟩
  obtain ⟨p, hp⟩ := hex
  exact List.mem_map_of_mem Prod.fst (lookupAssoc_mem _ _ _ hp)

theorem resolveList_no_missing_of (decls : List (String × CapDecl))
    (ctx : Ctx) (fuel : Nat)
    (hcap : ∀ vis c, c ∈ relevantCaps ctx →
      resolveCap decls ctx fuel vis c = Res.ok ∨
      ∃ d, resolveCap decls ctx fuel vis c = Res.fail (Reason.cyclic d)) :
    ∀ (vis : List String) (caps : List String),
      (∀ x ∈ caps, x ∈ relevantCaps ctx) →
      resolveList decls ctx fuel vis caps = Res.ok ∨
      ∃ d, resolveList decls ctx fuel vis caps = Res.fail (Reason.cyclic d) := by
  intro vis caps
  induction caps with
  | nil => intro _; left; rfl
  | cons a rest ih =>
      intro hsub
      rcases hcap vis a (hsub a (List.mem_cons_self a rest)) with ha | ⟨d, ha⟩
      · simp only [resolveList, ha]
        exact ih fun x hx => hsub x (List.mem_cons_of_mem a hx)
      · right
        exact ⟨d, by simp only [resolveList, ha]⟩

theorem resolveCap_no_missing (decls : List (String × CapDecl)) (ctx : Ctx)
    (hB : ∀ x ∈ relevantCaps ctx, boundOrSynth decls ctx x) :
    ∀ (fuel : Nat) (vis : List String) (c : String), c ∈ relevantCaps ctx →
      resolveCap decls ctx fuel vis c = Res.ok ∨
      ∃ d, resolveCap decls ctx fuel vis c = Res.fail (Reason.cyclic d) := by
  intro fuel
  induction fuel with
  | zero =>
      intro vis c _
      right
      exact ⟨c, resolveCap_zero decls ctx vis c⟩
  | succ fuel ih =>
      intro vis c hc
      by_cases hv : c ∈ vis
      · right
        exact ⟨c, by rw [resolveCap_succ, if_pos hv]⟩
      · rw [resolveCap_succ, if_neg hv]
        cases hl : lookupAssoc ctx.table c with
        | none =>
            rcases hB c hc with hsome | ⟨d, acc, a, hd, hacc, hs⟩
            · rw [hl] at hsome
              cases hsome
            · simp only [hd, hacc, hs]
              left
              trivial
        | some p =>
            apply resolveList_no_missing_of decls ctx fuel ih (c :: vis) p.requires
            intro x hx
            have hmem : (c, p) ∈ ctx.table := lookupAssoc_mem _ _ _ hl
            have hreq : p.requires ∈ ctx.table.map fun e => e.2.requires :=
              List.mem_map_of_mem _ hmem
            exact List.mem_append.mpr
              (Or.inr (List.mem_flatten.mpr ⟨p.requires, hreq, hx⟩))

/-! ## The claims -/

/-- C1: For the context `Person` with attribute `name = "Alice"`, a
delegation table binding the greeter capability to `GreetHello`, and the
`HasName` accessor capability synthesized from the `name` attribute,
resolution succeeds and invoking the greet capability on that `Person`
produces exactly the output "Hello, Alice!". -/
theorem person_alice_round_trip :
    resolveContext helloDecls personCtxDecl = Res.ok ∧
    invoke personTable providerRun "GreeterComponent" { name := "Alice" } =
      some "Hello, Alice!" :=
  ⟨by decide, by decide⟩

/-- C2: Every call of a capability bound in a context's delegation table
invokes exactly the provider bound to it in that table, the binding is
unique, and on `Person` the greet capability invokes `GreetHello`. -/
theorem capability_call_invokes_bound_provider
    {Context ProviderT : Type} (table : List (String × ProviderT))
    (run : ProviderT → Context → String) (cap : String) (pr : ProviderT)
    (c : Context) (h : lookupAssoc table cap = some pr) :
    invoke table run cap c = some (run pr c) ∧
    (∀ pr₂ : ProviderT, lookupAssoc table cap = some pr₂ → pr₂ = pr) ∧
    lookupAssoc personTable "GreeterComponent" = some PId.greetHello ∧
    invoke personTable providerRun "GreeterComponent" { name := "Alice" } =
      some (providerRun PId.greetHello { name := "Alice" }) := by
  refine ⟨?_, ?_, by decide, by decide⟩
  · simp only [invoke, h]
  · intro pr₂ h₂
    rw [h] at h₂
    exact (Option.some.inj h₂).symm

/-- Witness for C2 on the `Person` delegation table. -/
theorem capability_call_invokes_bound_provider_witness :
    invoke personTable providerRun "GreeterComponent" { name := "Alice" } =
      some (providerRun PId.greetHello { name := "Alice" }) :=
  (capability_call_invokes_bound_provider personTable providerRun
    "GreeterComponent" PId.greetHello { name := "Alice" } (by decide)).1

/-- C3: Invoking the same capability twice on the same unmodified context
yields identical results: two consecutive runs of greet emit the same line
twice, with no hidden state influencing the second run. -/
theorem greet_twice_deterministic {Context : Type} (inst : HasNameInst Context)
    (c : Context) (out : List String) :
    greetRun inst c (greetRun inst c out) =
      out ++ [GreetHello.greet inst c, GreetHello.greet inst c] := by
  simp [greetRun, printlnLine]

/-- C4: `GreetHello` is defined once and generic over any context
satisfying its requirement set (`HasName` with a displayable `Name`): for
every such context it emits "Hello, " followed by the displayed name and
"!", and its output is determined solely by what the declared requirements
expose about the context. -/
theorem greet_hello_generic_over_requirements {Context : Type}
    (inst : HasNameTypeInst Context) (x : Context) :
    GreetHelloAbs.greet inst x =
      "Hello, " ++ inst.display (inst.name x) ++ "!" ∧
    (∀ {D : Type} (instD : HasNameTypeInst D) (y : D),
      inst.display (inst.name x) = instD.display (instD.name y) →
      GreetHelloAbs.greet inst x = GreetHelloAbs.greet instD y) := by
  refine ⟨rfl, ?_⟩
  intro D instD y h
  simp only [GreetHelloAbs.greet, h]

/-- Witness for C4: the one provider definition greets a `Person` and an
unrelated `Robot` identically when their exposed names agree. -/
theorem greet_hello_generic_over_requirements_witness :
    GreetHelloAbs.greet personAbsInst { name := "Alice" } =
      GreetHelloAbs.greet robotAbsInst { serial := "Alice" } :=
  (greet_hello_generic_over_requirements personAbsInst
    { name := "Alice" }).2 robotAbsInst { serial := "Alice" } rfl

/-- C5: Getter synthesis is exact-name-match only: it succeeds precisely
when exactly one attribute matches the accessor's identifier and satisfies
its declared bound; the synthesized getter reads exactly that attribute;
no-match and ambiguous-match both fail rather than default. -/
theorem getter_synthesis_exact_name_match (attrs : List (String × Ty))
    (acc : Accessor) :
    ((synthGetter attrs acc).isSome ↔ (matchingAttrs attrs acc).length = 1) ∧
    (∀ a, synthGetter attrs acc = some a →
      a ∈ attrs ∧ a.1 = acc.attrName ∧ satisfiesBound a.2 acc.bound = true) ∧
    (matchingAttrs attrs acc = [] → synthGetter attrs acc = none) ∧
    (∀ a b rest, matchingAttrs attrs acc = a :: b :: rest →
      synthGetter attrs acc = none) := by
  rcases hm : matchingAttrs attrs acc with _ | ⟨a0, _ | ⟨b0, rest1⟩⟩
  · refine ⟨by simp [synthGetter, hm], ?_, ?_, ?_⟩
    · intro a ha
      simp only [synthGetter, hm] at ha
      cases ha
    · intro _
      simp [synthGetter, hm]
    · intro a b rest h
      simp at h
  · refine ⟨by simp [synthGetter, hm], ?_, ?_, ?_⟩
    · intro a ha
      simp only [synthGetter, hm] at ha
      injection ha with ha0
      subst ha0
      have hmem : a0 ∈ matchingAttrs attrs acc := by
        rw [hm]
        exact List.mem_singleton.mpr rfl
      simp only [matchingAttrs] at hmem
      have hspec := List.mem_filter.mp hmem
      simpa [Bool.and_eq_true, decide_eq_true_eq] using hspec
    · intro h
      simp at h
    · intro a b rest h
      simp at h
  · refine ⟨?_, ?_, ?_, ?_⟩
    · simp [synthGetter, hm]
    · intro a ha
      simp only [synthGetter, hm] at ha
      cases ha
    · intro _
      simp [synthGetter, hm]
    · intro a b rest _
      simp [synthGetter, hm]

/-- Witness for C5 at `Person`'s attribute set and the `HasName`
accessor. -/
theorem getter_synthesis_exact_name_match_witness :
    ("name", Ty.str) ∈ [("name", Ty.str)] ∧
    ("name", Ty.str).1 = "name" ∧
    satisfiesBound ("name", Ty.str).2 Bound.display = true :=
  (getter_synthesis_exact_name_match [("name", Ty.str)]
    { attrName := "name", bound := Bound.display }).2.1
    ("name", Ty.str) (by decide)

/-- C6: Synthesized getters never mutate the context: running a getter
returns the context unchanged together with a view of the stored attribute
value; in particular `Person`'s `name()` returns the stored field and
leaves the `Person` unchanged. -/
theorem synthesized_getter_never_mutates :
    (∀ (ctx : FieldCtx) (attr : String),
      (runSynthGetter ctx attr).1 = ctx ∧
      (runSynthGetter ctx attr).2 = lookupAssoc ctx.fields attr) ∧
    (∀ p : Person,
      (Person.nameGetter p).1 = p ∧ (Person.nameGetter p).2 = p.name) :=
  ⟨fun _ _ => ⟨rfl, rfl⟩, fun _ => ⟨rfl, rfl⟩⟩

/-- C7: Renaming `Person`'s attribute from `name` to `full_name` while
leaving the `HasName` binding unchanged makes build-time resolution fail
with reason Missing for capability `HasName`; it does not succeed. -/
theorem renamed_attribute_resolution_missing :
    resolveContext helloDecls renamedPersonCtxDecl =
      Res.fail (Reason.missing "HasName") ∧
    resolveContext helloDecls renamedPersonCtxDecl ≠ Res.ok :=
  ⟨by decide, by decide⟩

/-- C8: A delegation table in which a provider transitively requires, for
the same context, the very capability it provides never resolves
successfully (the checker is a total function, so it always terminates),
and whenever every capability the table mentions is bound or synthesizable
the reported reason is Cyclic. -/
theorem cyclic_delegation_table_fails
    (decls : List (String × CapDecl)) (ctx : Ctx) (c : String)
    (hcyc : ReqPath ctx.table c c) :
    resolveContext decls ctx ≠ Res.ok ∧
    ((∀ x ∈ relevantCaps ctx, boundOrSynth decls ctx x) →
      ∃ d, resolveContext decls ctx = Res.fail (Reason.cyclic d)) := by
  have hroot : c ∈ rootCaps ctx := reqpath_start_mem_roots hcyc
  have hne : resolveContext decls ctx ≠ Res.ok := by
    intro h
    rw [resolveContext] at h
    have hcok := resolveList_ok_of_mem h hroot
    exact (resolveCap_ok_no_path_into_stack decls ctx _ [] c hcok c hcyc)
      (List.mem_cons_self c [])
  refine ⟨hne, fun hB => ?_⟩
  have hsub : ∀ x ∈ rootCaps ctx, x ∈ relevantCaps ctx := by
    intro x hx
    exact List.mem_append.mpr (Or.inl hx)
  rcases resolveList_no_missing_of decls ctx (contextFuel decls ctx)
      (resolveCap_no_missing decls ctx hB (contextFuel decls ctx)) []
      (rootCaps ctx) hsub with hok | ⟨d, hd⟩
  · exact absurd (by rw [resolveContext]; exact hok) hne
  · exact ⟨d, by rw [resolveContext]; exact hd⟩

/-- Witness for C8 at the concrete two-provider cycle. -/
theorem cyclic_delegation_table_fails_witness :
    resolveContext [] cycCtx ≠ Res.ok ∧
    ∃ d, resolveContext [] cycCtx = Res.fail (Reason.cyclic d) := by
  have hpath : ReqPath cycCtx.table "Greet" "Greet" :=
    ReqPath.cons
      (show tableEdge cycCtx.table "Greet" "Helper" from
        ⟨{ requires := ["Helper"] }, by decide, by decide⟩)
      (ReqPath.single
        (show tableEdge cycCtx.table "Helper" "Greet" from
          ⟨{ requires := ["Greet"] }, by decide, by decide⟩))
  have h := cyclic_delegation_table_fails [] cycCtx "Greet" hpath
  refine ⟨h.1, h.2 ?_⟩
  intro x hx
  have hrel : relevantCaps cycCtx = ["Greet", "Helper", "Helper", "Greet"] :=
    by decide
  rw [hrel] at hx
  exact Or.inl (by fin_cases hx <;> decide)

/-- C9: The abstract-slot variant (capability `Name` bound to `String` via
`UseType<String>`) and the concrete variant (`HasName` returning the string
directly) are observationally equivalent on `Person`: for every name value
the greet output is the same line. -/
theorem abstract_and_concrete_variants_equivalent (s : String) :
    GreetHelloAbs.greet personAbsInst { name := s } =
      GreetHello.greet personHasName { name := s } ∧
    GreetHello.greet personHasName { name := s } = "Hello, " ++ s ++ "!" :=
  ⟨rfl, rfl⟩

/-- C10: The synthesized getter is an identity accessor: constructing a
`Person` from a name and reading it back through the delegated
`NameGetterComponent` (`UseFields`) returns exactly the stored value. -/
theorem getter_field_round_trip (s : String) :
    personNameMethod { name := s } = some s ∧
    (Person.nameGetter { name := s }).2 = s :=
  ⟨rfl, rfl⟩

end CGP
